import Mathlib

/-!
A shallow embedding of libbmpread (src/bmpread.c, version 2.1) in Lean 4,
together with theorems checking the natural-language specification against it.

Modelling conventions:
* The platform is LP64 (the common 64-bit model): `size_t` and `long` are
  64 bits, `int` is 32 bits, `CHAR_BIT = 8`.  Consequently the C guards that
  are preprocessed out on such a platform (`CanMakeSizeT`, `CanMakeLong`, the
  `UINT32_MAX > LONG_MAX` and `INT32_MAX > INT_MAX` blocks) are omitted here,
  with a comment at each omission site.
* A `FILE *` opened in binary mode is modelled as a list of bytes plus a read
  position (`FStream`).  `fgetc` yields the byte at the position (reduced
  mod 256: a C stream always yields values 0..255) or fails at end of data.
  `fseek(fp, off, SEEK_SET)` on a regular file succeeds even past the end, so
  it is modelled as simply setting the position.
* `malloc` is modelled as always succeeding; each allocation performed by
  `Validate` is recorded in an event list so that claims about allocation
  ordering are statable.
* Machine integers are modelled as `Nat` (unsigned) or `Int` (signed), with
  explicit `% 2 ^ w` where the C computation can wrap.
* The single `float` field (`value_multiplier`) is modelled as `ℚ`, the exact
  value `255 / (2 ^ bit_count - 1)` that the C expression computes in float
  arithmetic.
-/

namespace LibBmpread

/-- SIZE_MAX on an LP64 platform (64-bit `size_t`). -/
def SIZE_MAX : Nat := 2 ^ 64 - 1

/-- PTRDIFF_MAX on an LP64 platform (64-bit `ptrdiff_t`). -/
def PTRDIFF_MAX : Nat := 2 ^ 63 - 1

/-- INT32_MIN, the one `int32_t` value that `CanNegate` rejects. -/
def INT32_MIN : Int := -(2 ^ 31)

/-- Flag values from bmpread.h. -/
def BMPREAD_TOP_DOWN : Nat := 1

/-- Flag: perform no dword alignment of output lines. -/
def BMPREAD_BYTE_ALIGN : Nat := 2

/-- Flag: allow non-power-of-two dimensions. -/
def BMPREAD_ANY_SIZE : Nat := 4

/-- Modelled from the spec: the ALPHA flag ("emit 4 output channels per
pixel, RGBA"), used by `bmpread.c` but absent from the (older, mismatched)
bmpread.h bundled in src/.  It is the next free flag bit. -/
def BMPREAD_ALPHA : Nat := 8

/-- Default value for alpha when none is present in the file
(`BMPREAD_DEFAULT_ALPHA`). -/
def BMPREAD_DEFAULT_ALPHA : Nat := 255

/-- A binary input stream: the whole file contents plus the read position.
This models the `FILE *` used throughout bmpread.c. -/
structure FStream where
  data : List Nat
  pos : Nat
deriving DecidableEq, Repr

/-- Model of `fgetc`: the byte at the current position (a C byte stream
yields values 0..255, hence the `% 256`), or failure at end of data. -/
def fgetc (s : FStream) : Option (Nat × FStream) :=
  match s.data[s.pos]? with
  | some b => some (b % 256, ⟨s.data, s.pos + 1⟩)
  | none => none

/-- Model of `fread(buf, 1, n, fp) == n`: reads `n` bytes from the current
position; a short read (fewer than `n` bytes remain) is a failure, as every
caller in bmpread.c treats it. -/
def FileRead (n : Nat) (s : FStream) : Option (List Nat × FStream) :=
  if n ≤ s.data.length - s.pos then
    some (((s.data.drop s.pos).take n).map (· % 256), ⟨s.data, s.pos + n⟩)
  else none

/-- The loop body of `ReadLittleBytes`: `bytes` is the loop counter, `dest`
the accumulator, `shift` the current shift (in bits). -/
def ReadLittleLoop (bytes : Nat) (dest shift : Nat) (s : FStream) :
    Option (Nat × FStream) :=
  match bytes with
  | 0 => some (dest, s)
  | b + 1 =>
    match fgetc s with
    | none => none
    | some (byte, s') => ReadLittleLoop b (dest + (byte <<< shift)) (shift + 8) s'

/-- `ReadLittleBytes`: reads up to 4 little-endian bytes and assembles them
least-significant-first.  (For at most 4 bytes the `uint32_t` accumulation
never wraps, so plain `Nat` addition is exact.) -/
def ReadLittleBytes (bytes : Nat) (s : FStream) : Option (Nat × FStream) :=
  ReadLittleLoop bytes 0 0 s

/-- The little-endian value of the first `n` entries of a byte list;
used to state what `ReadLittleBytes` computes. -/
def LeVal : Nat → List Nat → Nat
  | 0, _ => 0
  | _ + 1, [] => 0
  | n + 1, b :: rest => b % 256 + 256 * LeVal n rest

/-- `ReadLittleUint32` (a macro in the source). -/
def ReadLittleUint32 (s : FStream) : Option (Nat × FStream) :=
  ReadLittleBytes 4 s

/-- `ReadLittleInt32`: reads a little-endian `uint32_t` and reinterprets the
bits as `int32_t` (the union trick in the source: two's complement). -/
def ReadLittleInt32 (s : FStream) : Option (Int × FStream) :=
  match ReadLittleBytes 4 s with
  | none => none
  | some (u, s') => some (if u < 2 ^ 31 then (u : Int) else (u : Int) - 2 ^ 32, s')

/-- `ReadLittleUint16`: reads 2 little-endian bytes (the `(uint16_t)` cast
cannot lose data since the value is below 2^16). -/
def ReadLittleUint16 (s : FStream) : Option (Nat × FStream) :=
  match ReadLittleBytes 2 s with
  | none => none
  | some (t, s') => some (t % 2 ^ 16, s')

/-- `ReadUint8`. -/
def ReadUint8 (s : FStream) : Option (Nat × FStream) := fgetc s

/-- Bitmap file header (`bmp_header`), including magic bytes. -/
structure bmp_header where
  magic0 : Nat
  magic1 : Nat
  file_size : Nat
  unused : Nat
  data_offset : Nat
deriving DecidableEq, Repr

/-- `ReadHeader`: reads the two magic bytes, rejects non-"BM" files before
reading anything else, then reads the three `uint32_t` fields. -/
def ReadHeader (s : FStream) : Option (bmp_header × FStream) :=
  match ReadUint8 s with
  | none => none
  | some (magic0, s) =>
  match ReadUint8 s with
  | none => none
  | some (magic1, s) =>
  if magic0 ≠ 0x42 then none
  else if magic1 ≠ 0x4d then none
  else
  match ReadLittleUint32 s with
  | none => none
  | some (file_size, s) =>
  match ReadLittleUint32 s with
  | none => none
  | some (unused, s) =>
  match ReadLittleUint32 s with
  | none => none
  | some (data_offset, s) =>
  some (⟨magic0, magic1, file_size, unused, data_offset⟩, s)

/-- `BMP_HEADER_SIZE`: bytes occupied by a header in the file. -/
def BMP_HEADER_SIZE : Nat := 14

/-- Bitmap info struct (`bmp_info`).  The four masks are separate fields
(the C `uint32_t masks[4]`); they default to 0 when not read, because the
whole context is `memset` to zero in `bmpread` before parsing. -/
structure bmp_info where
  info_size : Nat
  width : Int
  height : Int
  planes : Nat
  bits : Nat
  compression : Nat
  unused0 : Nat
  unused1 : Nat
  unused2 : Nat
  unused3 : Nat
  unused4 : Nat
  masks0 : Nat
  masks1 : Nat
  masks2 : Nat
  masks3 : Nat
deriving DecidableEq, Repr

/-- `MIN_INFO_SIZE` (= `BMP3_INFO_SIZE` = 40): the Windows 3/NT info size. -/
def BMP3_INFO_SIZE : Nat := 40

/-- Minimal accepted info size. -/
def MIN_INFO_SIZE : Nat := BMP3_INFO_SIZE

/-- Compression values: `COMPRESSION_NONE`. -/
def COMPRESSION_NONE : Nat := 0

/-- `COMPRESSION_RLE8`. -/
def COMPRESSION_RLE8 : Nat := 1

/-- `COMPRESSION_RLE4`. -/
def COMPRESSION_RLE4 : Nat := 2

/-- `COMPRESSION_BITFIELDS`. -/
def COMPRESSION_BITFIELDS : Nat := 3

/-- The mask-reading block at the end of `ReadInfo`: masks are read only when
compression = BITFIELDS; the alpha mask only when `info_size > 40`.  Unread
masks stay 0 (the context was zeroed). -/
def ReadMasks (compression info_size : Nat) (s : FStream) :
    Option ((Nat × Nat × Nat × Nat) × FStream) :=
  if compression = COMPRESSION_BITFIELDS then
    match ReadLittleUint32 s with
    | none => none
    | some (m0, s) =>
    match ReadLittleUint32 s with
    | none => none
    | some (m1, s) =>
    match ReadLittleUint32 s with
    | none => none
    | some (m2, s) =>
    if info_size > BMP3_INFO_SIZE then
      match ReadLittleUint32 s with
      | none => none
      | some (m3, s) => some ((m0, m1, m2, m3), s)
    else some ((m0, m1, m2, 0), s)
  else some ((0, 0, 0, 0), s)

/-- `ReadInfo`: reads the info size first and rejects pre-Windows-3 formats
before trusting any later field, then the remaining fields and (when needed)
the channel masks. -/
def ReadInfo (s : FStream) : Option (bmp_info × FStream) :=
  match ReadLittleUint32 s with
  | none => none
  | some (info_size, s) =>
  if info_size < MIN_INFO_SIZE then none
  else
  match ReadLittleInt32 s with
  | none => none
  | some (width, s) =>
  match ReadLittleInt32 s with
  | none => none
  | some (height, s) =>
  match ReadLittleUint16 s with
  | none => none
  | some (planes, s) =>
  match ReadLittleUint16 s with
  | none => none
  | some (bits, s) =>
  match ReadLittleUint32 s with
  | none => none
  | some (compression, s) =>
  match ReadLittleUint32 s with
  | none => none
  | some (u0, s) =>
  match ReadLittleUint32 s with
  | none => none
  | some (u1, s) =>
  match ReadLittleUint32 s with
  | none => none
  | some (u2, s) =>
  match ReadLittleUint32 s with
  | none => none
  | some (u3, s) =>
  match ReadLittleUint32 s with
  | none => none
  | some (u4, s) =>
  match ReadMasks compression info_size s with
  | none => none
  | some ((m0, m1, m2, m3), s) =>
  some (⟨info_size, width, height, planes, bits, compression,
         u0, u1, u2, u3, u4, m0, m1, m2, m3⟩, s)

/-- A palette entry (`bmp_color`), file order blue, green, red, unused. -/
structure bmp_color where
  blue : Nat
  green : Nat
  red : Nat
  unused : Nat
deriving DecidableEq, Repr

/-- `BMP_COLOR_SIZE`: bytes per palette entry in the file. -/
def BMP_COLOR_SIZE : Nat := 4

/-- `ReadPalette`: reads `colors` 4-byte entries; any short read fails. -/
def ReadPalette (colors : Nat) (s : FStream) :
    Option (List bmp_color × FStream) :=
  match colors with
  | 0 => some ([], s)
  | n + 1 =>
    match FileRead BMP_COLOR_SIZE s with
    | none => none
    | some (comps, s') =>
      match ReadPalette n s' with
      | none => none
      | some (rest, s'') =>
        some (⟨comps.getD 0 0, comps.getD 1 0, comps.getD 2 0,
               comps.getD 3 0⟩ :: rest, s'')

/-- `bit_field_info`: shift, count and mask of a channel's bits, plus the
normalization multiplier (a C `float`, modelled exactly as `ℚ`). -/
structure bit_field_info where
  bit_shift : Nat
  bit_count : Nat
  bit_mask : Nat
  value_multiplier : ℚ
deriving DecidableEq, Repr

/-- `BMP_BIT_FIELD_SIZE` (bytes; the loop below scans `8 *` this many bits). -/
def BMP_BIT_FIELD_SIZE : Nat := 4

/-- The scanning loop of `CreateBitField`.  `fuel` counts the remaining loop
iterations (the C loop runs `bit_nr = 0 .. 31`, so it is entered with
`fuel = 32, bit_nr = 0`); `shift` holds 255 (`0xff`, the impossible sentinel)
until the first set bit is found; `count` is the number of set bits so far.
Failure (`return 0` inside the loop) is the contiguity violation. -/
def CreateBitFieldLoop (mask : Nat) : Nat → Nat → Nat → Nat → Option (Nat × Nat)
  | 0, _, shift, count => some (shift, count)
  | fuel + 1, bit_nr, shift, count =>
    if (mask >>> bit_nr) &&& 1 = 1 then
      let shift' := if shift = 255 then bit_nr else shift
      if bit_nr ≠ count + shift' then none
      else CreateBitFieldLoop mask fuel (bit_nr + 1) shift' (count + 1)
    else CreateBitFieldLoop mask fuel (bit_nr + 1) shift count

/-- `CreateBitField`: builds a `bit_field_info` from a raw 32-bit mask.
(The null-pointer "idiot test" has no counterpart in the model.)  A zero mask
yields the all-zero field; otherwise the 32 bit positions are scanned for a
single contiguous run; after the loop, a zero count, an unset shift, or a
count above 31 is rejected; the multiplier is `255 / (2^count - 1)`. -/
def CreateBitField (bit_field_mask : Nat) : Option bit_field_info :=
  if bit_field_mask = 0 then some ⟨0, 0, 0, 0⟩
  else
    match CreateBitFieldLoop bit_field_mask (BMP_BIT_FIELD_SIZE * 8) 0 255 0 with
    | none => none
    | some (shift, count) =>
      if count = 0 ∨ shift = 255 then none
      else if count > 31 then none
      else some ⟨shift, count, bit_field_mask,
                 (0xff : ℚ) / (((2 ^ count - 1 : Nat) : ℚ))⟩

/-- The `while(x)` loop of `IsPowerOf2`, with an explicit iteration bound:
each iteration either exits or shifts `x` right by one, so 32 iterations
cover every `uint32_t` input (any nonzero `x < 2^32` reaches an odd value
within 31 shifts, and 0 exits immediately). -/
def IsPowerOf2Loop : Nat → Nat → Bool
  | 0, _ => false
  | fuel + 1, x =>
    if x = 0 then false
    else if x &&& 1 = 1 then x &&& 0xfffffffe == 0
    else IsPowerOf2Loop fuel (x / 2)

/-- `IsPowerOf2`: shifts right until a set bit is found, then returns whether
no other bit is set (`!(x & ~UINT32_C(1))`, i.e. the remaining value is
exactly 1); 0 reaches the end of the loop and is not a power of two. -/
def IsPowerOf2 (x : Nat) : Bool := IsPowerOf2Loop 32 x

/-- `GetLineLength`: byte length of a scan line padded to a multiple of four
bytes, or 0 on `size_t` overflow of the multiply or of the padding addition.
The multiplication wraps mod 2^64 before the check, exactly as in C;
`x &&& 0x1f` is the C `x & 0x1f` (= `x % 32`). -/
def GetLineLength (width bpp : Nat) : Nat :=
  let bits := (width * bpp) % 2 ^ 64
  let pad_bits := (32 - (bits &&& 0x1f)) &&& 0x1f
  -- CanMultiply(width, bpp) and CanAdd(bits, pad_bits):
  if ¬(width ≤ SIZE_MAX / bpp) ∨ ¬(bits ≤ SIZE_MAX - pad_bits) then 0
  else (bits + pad_bits) / 8

/-- The supported (compression, bits) combinations: the `switch` in
`Validate` (uncompressed 1/4/8/24, bit-fields 16/32; every other
compression, including both RLE modes, sets `is_supported = 0`). -/
def IsSupported (compression bits : Nat) : Bool :=
  match compression with
  | 0 => bits == 1 || bits == 4 || bits == 8 || bits == 24
  | 3 => bits == 16 || bits == 32
  | _ => false

/-- The bit-field loop of `Validate` (channels 0..3, modelled on the list of
the four masks): each channel's mask must not overlap the union of the
previous masks, `CreateBitField` must succeed, and the bit counts are
summed.  (The four counts sum to at most 128, so the `uint8_t` accumulator
never wraps.) -/
def BitFieldLoop : List Nat → Nat → Nat → List bit_field_info →
    Option (Nat × List bit_field_info)
  | [], _, total_bit_count, fields => some (total_bit_count, fields)
  | m :: rest, total_bit_mask, total_bit_count, fields =>
    if total_bit_mask &&& m ≠ 0 then none
    else
      match CreateBitField m with
      | none => none
      | some f =>
        BitFieldLoop rest (total_bit_mask ||| m) (total_bit_count + f.bit_count)
          (fields ++ [f])

/-- The whole bit-field block of `Validate`: run the loop over the four
masks, then reject if the total bit count exceeds the declared bpp. -/
def ValidateBitFields (masks : List Nat) (bits : Nat) :
    Option (List bit_field_info) :=
  match BitFieldLoop masks 0 0 [] with
  | none => none
  | some (total_bit_count, fields) =>
    if bits < total_bit_count then none else some fields

/-- The stage at which `Validate` returns 0.  The constructors appear in the
order of the checks in the source; allocation failures cannot occur in the
model (`malloc` always succeeds). -/
inductive VErr where
  | badHeader
  | badInfo
  | badDims
  | unsupported
  | lineLen
  | outMul
  | outLineLen
  | negate
  | pow2Width
  | pow2Lines
  | paletteRead
  | bitFields
  | linesMul
deriving DecidableEq, Repr

/-- An allocation performed by `Validate` (argument: requested byte count).
`Validate` returns the list of allocations it performed, in order, so that
claims about what is allocated before a rejection are statable. -/
inductive VAlloc where
  | palette (bytes : Nat)
  | fileData (bytes : Nat)
  | dataOut (bytes : Nat)
deriving DecidableEq, Repr

/-- The fields of the read context established by the first (pure checking)
half of `Validate`, before any allocation. -/
structure pre_context where
  flags : Nat
  header : bmp_header
  info : bmp_info
  file_line_len : Nat
  out_channel_count : Nat
  out_line_len : Nat
  lines : Nat
deriving DecidableEq, Repr

/-- The fully validated `read_context` (the fields of the C struct that the
decode phase reads; `fp` becomes the byte list `data`). -/
structure read_context where
  flags : Nat
  header : bmp_header
  info : bmp_info
  lines : Nat
  file_line_len : Nat
  out_channel_count : Nat
  out_line_len : Nat
  palette : List bmp_color
  bit_fields : List bit_field_info
  data : List Nat
deriving DecidableEq, Repr

/-- `p_ctx->out_channel_count`: 4 with the ALPHA flag, else 3. -/
def OutChannelCount (flags : Nat) : Nat :=
  if flags &&& BMPREAD_ALPHA ≠ 0 then 4 else 3

/-- `p_ctx->out_line_len`: `width * out_channel_count` with the BYTE_ALIGN
flag, else the dword-padded line length of `out_channel_count * 8` bits per
pixel (whose zero result is a rejection, modelled as `none`). -/
def ComputeOutLineLen (flags width occ : Nat) : Option Nat :=
  if flags &&& BMPREAD_BYTE_ALIGN ≠ 0 then some (width * occ)
  else
    let oll := GetLineLength width (occ * 8)
    if oll = 0 then none else some oll

/-- The checking half of `Validate` (source order, short-circuiting):
header, info, dimension signs, supported combination, file line length,
output channel count and line length, height negation, power-of-two tests.
No allocation happens in this half.  `CanMakeSizeT(width)` is compiled out
on a 64-bit `size_t` platform. -/
def ValidateChecks (flags : Nat) (s : FStream) : Except VErr pre_context :=
  match ReadHeader s with
  | none => .error .badHeader
  | some (header, s) =>
  match ReadInfo s with
  | none => .error .badInfo
  | some (info, _) =>
  if info.width ≤ 0 ∨ info.height = 0 then .error .badDims
  else if ¬IsSupported info.compression info.bits then .error .unsupported
  else if GetLineLength info.width.toNat info.bits = 0 then .error .lineLen
  -- CanMultiply(width, out_channel_count):
  else if ¬(info.width.toNat ≤ SIZE_MAX / OutChannelCount flags) then
    .error .outMul
  else
    match ComputeOutLineLen flags info.width.toNat (OutChannelCount flags) with
    | none => .error .outLineLen
    | some out_line_len =>
      -- CanNegate(height):
      if info.height = INT32_MIN then .error .negate
      else if flags &&& BMPREAD_ANY_SIZE = 0 ∧
              IsPowerOf2 info.width.toNat = false then .error .pow2Width
      else if flags &&& BMPREAD_ANY_SIZE = 0 ∧
              IsPowerOf2 info.height.natAbs = false then .error .pow2Lines
      else .ok ⟨flags, header, info, GetLineLength info.width.toNat info.bits,
                OutChannelCount flags, out_line_len, info.height.natAbs⟩

/-- The palette block of `Validate`: for bpp ≤ 8, allocate `2^bpp` entries,
seek to `BMP_HEADER_SIZE + info_size` and read them.  (`CanMakeLong` and the
`LONG_MAX` guard are compiled out on an LP64 platform; `fseek` on a regular
file succeeds.)  For bpp > 8 the palette stays NULL (here: empty). -/
def ValidatePalette (data : List Nat) (pre : pre_context) :
    Except VErr (List bmp_color) × List VAlloc :=
  if pre.info.bits ≤ 8 then
    let colors := 2 ^ pre.info.bits
    let allocs := [VAlloc.palette (colors * BMP_COLOR_SIZE)]
    match ReadPalette colors ⟨data, BMP_HEADER_SIZE + pre.info.info_size⟩ with
    | none => (.error .paletteRead, allocs)
    | some (palette, _) => (.ok palette, allocs)
  else (.ok [], [])

/-- The loading half of `Validate`: palette, bit fields (only when
compression = 3; otherwise the four zeroed fields from the `memset` context),
then the scratch-line and output-buffer allocations, guarded by
`CanMultiply(lines, out_line_len)` (`CanMakeSizeT(lines)` is compiled out). -/
def ValidateLoad (data : List Nat) (pre : pre_context) :
    Except VErr read_context × List VAlloc :=
  match ValidatePalette data pre with
  | (.error e, allocs) => (.error e, allocs)
  | (.ok palette, allocs) =>
  match (if pre.info.compression = 3 then
           ValidateBitFields
             [pre.info.masks0, pre.info.masks1, pre.info.masks2, pre.info.masks3]
             pre.info.bits
         else some (List.replicate 4 ⟨0, 0, 0, 0⟩)) with
  | none => (.error .bitFields, allocs)
  | some bit_fields =>
    let allocs := allocs ++ [VAlloc.fileData pre.file_line_len]
    if ¬(pre.lines ≤ SIZE_MAX / pre.out_line_len) then (.error .linesMul, allocs)
    else
      (.ok ⟨pre.flags, pre.header, pre.info, pre.lines, pre.file_line_len,
            pre.out_channel_count, pre.out_line_len, palette, bit_fields, data⟩,
       allocs ++ [VAlloc.dataOut (pre.lines * pre.out_line_len)])

/-- `Validate`: reads and validates all metadata from the start of the file,
producing a full `read_context` (or the failure stage), together with the
list of allocations performed. -/
def Validate (flags : Nat) (data : List Nat) :
    Except VErr read_context × List VAlloc :=
  match ValidateChecks flags ⟨data, 0⟩ with
  | .error e => (.error e, [])
  | .ok pre => ValidateLoad data pre

/-- The bytes a scan-line decoder emits for one pixel whose three channel
values are already known, plus the constant alpha if 4-channel output is
selected.  (Every decoder ends a pixel this way.) -/
def PixelOut (ctx : read_context) (r g b : Nat) : List Nat :=
  [r, g, b] ++ (if ctx.out_channel_count = 4 then [BMPREAD_DEFAULT_ALPHA] else [])

/-- One channel of `Decode16`/`Decode32`: mask, shift, then scale by the
normalization multiplier; the `(uint8_t)` cast of the nonnegative float
product truncates toward zero (here: the floor of the exact `ℚ` product). -/
def ApplyBitField (f : bit_field_info) (value : Nat) : Nat :=
  (((((value &&& f.bit_mask) >>> f.bit_shift : Nat) : ℚ) * f.value_multiplier).floor).toNat

/-- Alpha handling shared by `Decode16`/`Decode32`: the fourth bit field if
its mask is nonzero, else the constant default alpha. -/
def BitFieldAlpha (ctx : read_context) (value : Nat) : List Nat :=
  if ctx.out_channel_count = 4 then
    match ctx.bit_fields.getD 3 ⟨0, 0, 0, 0⟩ with
    | f => if f.bit_mask ≠ 0 then [ApplyBitField f value] else [BMPREAD_DEFAULT_ALPHA]
  else []

/-- `Decode32`: the loop runs once per output pixel (the boundary is
`width * out_channel_count` bytes); each pixel reads the 32-bit word at
byte offset `4 * px` of the file line (the C code dereferences a `uint32_t *`
on a little-endian host) and applies the three colour bit fields and the
alpha rule. -/
def Decode32 (ctx : read_context) (p_file : List Nat) : List Nat :=
  ((List.range ctx.info.width.toNat).map (fun px =>
    let value := LeVal 4 (p_file.drop (4 * px))
    [ApplyBitField (ctx.bit_fields.getD 0 ⟨0, 0, 0, 0⟩) value,
     ApplyBitField (ctx.bit_fields.getD 1 ⟨0, 0, 0, 0⟩) value,
     ApplyBitField (ctx.bit_fields.getD 2 ⟨0, 0, 0, 0⟩) value]
    ++ BitFieldAlpha ctx value)).flatten

/-- `Decode24`: reorders each file BGR triple (bytes `3px+2, 3px+1, 3px`)
to RGB, appending the constant alpha if requested. -/
def Decode24 (ctx : read_context) (p_file : List Nat) : List Nat :=
  ((List.range ctx.info.width.toNat).map (fun px =>
    PixelOut ctx (p_file.getD (3 * px + 2) 0) (p_file.getD (3 * px + 1) 0)
      (p_file.getD (3 * px) 0))).flatten

/-- `Decode16`: like `Decode32` but the file pointer advances only 2 bytes
per pixel while still reading a 4-byte word (as the C code does). -/
def Decode16 (ctx : read_context) (p_file : List Nat) : List Nat :=
  ((List.range ctx.info.width.toNat).map (fun px =>
    let value := LeVal 4 (p_file.drop (2 * px))
    [ApplyBitField (ctx.bit_fields.getD 0 ⟨0, 0, 0, 0⟩) value,
     ApplyBitField (ctx.bit_fields.getD 1 ⟨0, 0, 0, 0⟩) value,
     ApplyBitField (ctx.bit_fields.getD 2 ⟨0, 0, 0, 0⟩) value]
    ++ BitFieldAlpha ctx value)).flatten

/-- `Decode8`: each file byte indexes the palette; emits red, green, blue. -/
def Decode8 (ctx : read_context) (p_file : List Nat) : List Nat :=
  ((List.range ctx.info.width.toNat).map (fun px =>
    let c := ctx.palette.getD (p_file.getD px 0) ⟨0, 0, 0, 0⟩
    PixelOut ctx c.red c.green c.blue)).flatten

/-- `Decode4`: high nibble of each byte first, then (if the boundary is not
yet reached) the low nibble. -/
def Decode4 (ctx : read_context) (p_file : List Nat) : List Nat :=
  ((List.range ctx.info.width.toNat).map (fun px =>
    let byte := p_file.getD (px / 2) 0
    let lookup := if px % 2 = 0 then (byte &&& 0xf0) >>> 4 else byte &&& 0x0f
    let c := ctx.palette.getD lookup ⟨0, 0, 0, 0⟩
    PixelOut ctx c.red c.green c.blue)).flatten

/-- `Decode1`: MSB-first bit extraction, 8 pixels per file byte. -/
def Decode1 (ctx : read_context) (p_file : List Nat) : List Nat :=
  ((List.range ctx.info.width.toNat).map (fun px =>
    let lookup := (p_file.getD (px / 8) 0 >>> (7 - px % 8)) &&& 1
    let c := ctx.palette.getD lookup ⟨0, 0, 0, 0⟩
    PixelOut ctx c.red c.green c.blue)).flatten

/-- The decoder dispatch `switch` in `Decode`; an unrecognized depth is the
`default: return 0` branch. -/
def DecoderFor (bits : Nat) : Option (read_context → List Nat → List Nat) :=
  match bits with
  | 32 => some Decode32
  | 24 => some Decode24
  | 16 => some Decode16
  | 8 => some Decode8
  | 4 => some Decode4
  | 1 => some Decode1
  | _ => none

/-- The `while` loop of `Decode`: read `lines` full scan lines of
`file_line_len` bytes each, in file order; any short read aborts (the loop
then exits with `p_out != p_out_end` and `Decode` returns 0). -/
def ReadLines : Nat → Nat → FStream → Option (List (List Nat))
  | 0, _, _ => some []
  | n + 1, len, s =>
    match FileRead len s with
    | none => none
    | some (line, s') =>
      match ReadLines n len s' with
      | none => none
      | some rest => some (line :: rest)

/-- The output buffer as `Decode` leaves it.  The buffer is one `malloc`
block of `lines * out_line_len` bytes; the decoder of each line writes its
first `width * out_channel_count` bytes and the remaining padding bytes stay
uninitialized (modelled as `none`).  When `keep` is false the destination
pointer starts at the last row and strides backwards, so the decoded lines
land in reverse order. -/
def ArrangeOut (keep : Bool) (out_line_len : Nat) (pix_lines : List (List Nat)) :
    List (Option Nat) :=
  ((if keep then pix_lines else pix_lines.reverse).map (fun l =>
    l.map some ++ List.replicate (out_line_len - l.length) none)).flatten

/-- `Decode`: checks `out_line_len` against PTRDIFF_MAX (this guard is live
on LP64 since SIZE_MAX > PTRDIFF_MAX), determines the scan direction
(`!(height < 0) == !(flags & BMPREAD_TOP_DOWN)` keeps file order), selects
the decoder by bit depth, seeks to the pixel data offset (`CanMakeLong` of a
`uint32_t` is compiled out on LP64) and runs the line loop. -/
def Decode (ctx : read_context) : Option (List (Option Nat)) :=
  if PTRDIFF_MAX < ctx.out_line_len then none
  else
    let keep := decide (ctx.info.height < 0) ==
                decide (ctx.flags &&& BMPREAD_TOP_DOWN ≠ 0)
    match DecoderFor ctx.info.bits with
    | none => none
    | some decoder =>
      match ReadLines ctx.lines ctx.file_line_len
              ⟨ctx.data, ctx.header.data_offset⟩ with
      | none => none
      | some file_lines =>
        some (ArrangeOut keep ctx.out_line_len (file_lines.map (decoder ctx)))

/-- The public image descriptor `bmpread_t`.  The bmpread.h bundled in src/
is an older release that predates bmpread.c v2.1; the fields here are
exactly the four that `bmpread` in src/bmpread.c writes (`width`, `height`,
`flags`, `data`).  A NULL `data` pointer is `none`. -/
structure bmpread_t where
  width : Nat
  height : Nat
  flags : Nat
  data : Option (List (Option Nat))
deriving DecidableEq, Repr

/-- `bmpread`: the public load entry point.  `bmp_file = none` models a NULL
path; `some none` a path whose `fopen` fails; `some (some data)` an openable
file with contents `data`.  `p_bmp_out = none` models a NULL output pointer;
otherwise the returned second component is the final contents of
`*p_bmp_out` (zeroed by `memset` once both pointers are known non-NULL, and
filled only on success).  The `INT32_MAX > INT_MAX` block is compiled out on
a platform with 32-bit `int`. -/
def bmpread (bmp_file : Option (Option (List Nat))) (flags : Nat)
    (p_bmp_out : Option bmpread_t) : Bool × Option bmpread_t :=
  match bmp_file with
  | none => (false, p_bmp_out)
  | some fopen_result =>
    match p_bmp_out with
    | none => (false, none)
    | some _ =>
      -- memset(p_bmp_out, 0, sizeof(bmpread_t)):
      match fopen_result with
      | none => (false, some ⟨0, 0, 0, none⟩)
      | some data =>
        match Validate flags data with
        | (.error _, _) => (false, some ⟨0, 0, 0, none⟩)
        | (.ok ctx, _) =>
          match Decode ctx with
          | none => (false, some ⟨0, 0, 0, none⟩)
          | some out =>
            (true, some ⟨ctx.info.width.toNat, ctx.lines, ctx.flags, some out⟩)

/-- `bmpread_free`: frees `p_bmp->data` if the descriptor is non-NULL and
its data pointer is non-NULL, then zeroes the descriptor.  The returned
`Bool` records whether a `free(p_bmp->data)` call happened, so that
"no double free" is statable. -/
def bmpread_free (p_bmp : Option bmpread_t) : Option bmpread_t × Bool :=
  match p_bmp with
  | none => (none, false)
  | some b => (some ⟨0, 0, 0, none⟩, b.data.isSome)

/-- The byte sequence of the little-endian reader test scenario. -/
def DemoBytes : List Nat := [0x01, 0x02, 0x03, 0x04, 0x50, 0x60, 0x70, 0x80]

/-- Reorders a scan line of file-order BGR triples into RGB triples (the
expected output of `Decode24` for 3-channel output). -/
def BgrToRgb : List Nat → List Nat
  | b :: g :: r :: rest => r :: g :: b :: BgrToRgb rest
  | l => l

/-- The pixel rows of the synthetic 24-bit 2x2 file, in file storage order,
each as BGR bytes (all twelve byte values distinct). -/
def File24PixelRows : List (List Nat) :=
  [[1, 2, 3, 4, 5, 6], [7, 8, 9, 10, 11, 12]]

/-- A synthetic 24-bit, 2x2, uncompressed bitmap file (positive height 2):
14-byte header with pixel data offset 54, 40-byte info, then the two pixel
rows of `File24PixelRows`, each padded to the 8-byte file line length with
filler bytes.  Total 70 bytes. -/
def File24 : List Nat :=
  -- header: "BM", file_size 70, unused 0, data_offset 54
  [0x42, 0x4d, 70, 0, 0, 0, 0, 0, 0, 0, 54, 0, 0, 0,
  -- info: size 40, width 2, height 2, planes 1, bits 24, compression 0
   40, 0, 0, 0, 2, 0, 0, 0, 2, 0, 0, 0, 1, 0, 24, 0, 0, 0, 0, 0,
  -- five unused uint32 fields
   0, 0, 0, 0, 0, 0, 0, 0, 0, 0, 0, 0, 0, 0, 0, 0, 0, 0, 0, 0,
  -- pixel row 0 (file order): BGR (1,2,3), BGR (4,5,6), 2 padding bytes
   1, 2, 3, 4, 5, 6, 0xaa, 0xbb,
  -- pixel row 1 (file order): BGR (7,8,9), BGR (10,11,12), 2 padding bytes
   7, 8, 9, 10, 11, 12, 0xcc, 0xdd]

/-- A minimal file whose info block declares compression 1 (RLE8) with
bpp 8 and 1x1 dimensions: parsing succeeds but the combination is
unsupported. -/
def FileRle8 : List Nat :=
  [0x42, 0x4d, 54, 0, 0, 0, 0, 0, 0, 0, 54, 0, 0, 0,
   40, 0, 0, 0, 1, 0, 0, 0, 1, 0, 0, 0, 1, 0, 8, 0, 1, 0, 0, 0,
   0, 0, 0, 0, 0, 0, 0, 0, 0, 0, 0, 0, 0, 0, 0, 0, 0, 0, 0, 0]

/-- A `read_context` used to witness the decode-loop theorem: the context
that `Validate 0 File24` produces. -/
def Ctx24 : read_context :=
  ⟨0, ⟨0x42, 0x4d, 70, 0, 54⟩,
   ⟨40, 2, 2, 1, 24, 0, 0, 0, 0, 0, 0, 0, 0, 0, 0⟩,
   2, 8, 3, 8, [], List.replicate 4 ⟨0, 0, 0, 0⟩, File24⟩

/-! ### Bitwise helper lemmas -/

theorem land_eq_zero_iff (a b : Nat) :
    a &&& b = 0 ↔ ∀ i, ¬(a.testBit i = true ∧ b.testBit i = true) := by
  constructor
  · intro h i ⟨ha, hb⟩
    have : (a &&& b).testBit i = true := by
      rw [Nat.testBit_and, ha, hb]; rfl
    rw [h, Nat.zero_testBit] at this
    exact Bool.false_ne_true this
  · intro h
    by_contra h0
    obtain ⟨i, hi⟩ := Nat.ne_zero_implies_bit_true h0
    rw [Nat.testBit_and, Bool.and_eq_true] at hi
    exact h i hi

theorem lor_land_eq_zero_iff (a b c : Nat) :
    (a ||| b) &&& c = 0 ↔ a &&& c = 0 ∧ b &&& c = 0 := by
  simp only [land_eq_zero_iff, Nat.testBit_or, Bool.or_eq_true]
  constructor
  · intro h
    exact ⟨fun i hi => h i ⟨Or.inl hi.1, hi.2⟩, fun i hi => h i ⟨Or.inr hi.1, hi.2⟩⟩
  · rintro ⟨h1, h2⟩ i ⟨hab, hc⟩
    rcases hab with h | h
    · exact h1 i ⟨h, hc⟩
    · exact h2 i ⟨h, hc⟩

/-! ### The little-endian primitive reader -/

theorem ReadLittleLoop_spec (n : Nat) :
    ∀ dest shift s, ReadLittleLoop n dest shift s =
      if n ≤ s.data.length - s.pos then
        some (dest + (LeVal n (s.data.drop s.pos)) <<< shift,
              ⟨s.data, s.pos + n⟩)
      else none := by
  induction n with
  | zero =>
    intro dest shift s
    simp [ReadLittleLoop, LeVal]
  | succ n ih =>
    intro dest shift s
    rw [ReadLittleLoop]
    unfold fgetc
    cases h : s.data[s.pos]? with
    | none =>
      have hlen : s.data.length ≤ s.pos := by
        simpa using List.getElem?_eq_none_iff.mp h
      simp only []
      rw [if_neg (by omega)]
    | some b =>
      have hlt : s.pos < s.data.length := by
        by_contra hc
        rw [List.getElem?_eq_none_iff.mpr (by omega)] at h
        exact Option.noConfusion h
      have hdrop : s.data.drop s.pos = s.data[s.pos] :: s.data.drop (s.pos + 1) :=
        List.drop_eq_getElem_cons hlt
      have hb : s.data[s.pos] = b := by
        have := List.getElem?_eq_getElem hlt
        rw [h] at this
        exact (Option.some_inj.mp this).symm
      simp only []
      rw [ih]
      simp only [List.length, hdrop, hb]
      by_cases hn : n + 1 ≤ s.data.length - s.pos
      · rw [if_pos (by omega), if_pos hn]
        have h1 : dest + (b % 256) <<< shift +
              LeVal n (s.data.drop (s.pos + 1)) <<< (shift + 8)
            = dest + LeVal (n + 1) (b :: s.data.drop (s.pos + 1)) <<< shift := by
          rw [LeVal]
          simp only [Nat.shiftLeft_eq, Nat.pow_add]
          ring
        have h2 : s.pos + 1 + n = s.pos + (n + 1) := by omega
        rw [h1, h2]
      · rw [if_neg (by omega), if_neg hn]

theorem ReadLittleBytes_spec (n : Nat) (s : FStream) :
    ReadLittleBytes n s =
      if n ≤ s.data.length - s.pos then
        some (LeVal n (s.data.drop s.pos), ⟨s.data, s.pos + n⟩)
      else none := by
  rw [ReadLittleBytes, ReadLittleLoop_spec]
  by_cases h : n ≤ s.data.length - s.pos
  · rw [if_pos h, if_pos h]
    simp [Nat.shiftLeft_eq]
  · rw [if_neg h, if_neg h]

/-- C10.  The little-endian primitive reader, applied twice with 4-byte
width to the byte sequence 01 02 03 04 50 60 70 80, yields 0x04030201 then
0x80706050, and a further read past the end of the data fails; in general an
N-byte read (N in 1, 2, 4) assembles the bytes least-significant-first
(`LeVal`) and fails exactly when fewer than N bytes remain. -/
theorem readLittleBytes_ok :
    (ReadLittleBytes 4 ⟨DemoBytes, 0⟩ = some (0x04030201, ⟨DemoBytes, 4⟩) ∧
     ReadLittleBytes 4 ⟨DemoBytes, 4⟩ = some (0x80706050, ⟨DemoBytes, 8⟩) ∧
     ReadLittleBytes 4 ⟨DemoBytes, 8⟩ = none) ∧
    (∀ n s, n = 1 ∨ n = 2 ∨ n = 4 →
      ReadLittleBytes n s =
        if n ≤ s.data.length - s.pos then
          some (LeVal n (s.data.drop s.pos), ⟨s.data, s.pos + n⟩)
        else none) := by
  refine ⟨⟨by decide, by decide, by decide⟩, ?_⟩
  intro n s _
  exact ReadLittleBytes_spec n s

/-- Witness for C10: the general statement applied at N = 2 on a concrete
two-byte stream. -/
theorem readLittleBytes_ok_witness :
    ReadLittleBytes 2 ⟨[7, 9], 0⟩ =
      if 2 ≤ ([7, 9] : List Nat).length - 0 then
        some (LeVal 2 (([7, 9] : List Nat).drop 0), ⟨[7, 9], 0 + 2⟩)
      else none :=
  readLittleBytes_ok.2 2 ⟨[7, 9], 0⟩ (Or.inr (Or.inl rfl))

/-! ### Scan-line length -/

theorem and_31_eq_mod (x : Nat) : x &&& 0x1f = x % 32 := by
  have h := Nat.and_pow_two_sub_one_eq_mod x 5
  norm_num at h
  exact h

/-- `GetLineLength` written without bit operations and without the mod-2^64
wrap: the wrap only matters when the product overflows, in which case the
overflow check forces the result to 0 anyway. -/
theorem getLineLength_eq (w b : Nat) (hb : 0 < b) :
    GetLineLength w b =
      if w * b ≤ SIZE_MAX ∧ w * b + (32 - w * b % 32) % 32 ≤ SIZE_MAX
      then (w * b + (32 - w * b % 32) % 32) / 8 else 0 := by
  simp only [GetLineLength, and_31_eq_mod]
  rw [Nat.mod_mod_of_dvd _ (by norm_num : (32 : Nat) ∣ 2 ^ 64)]
  have hdiv : w ≤ SIZE_MAX / b ↔ w * b ≤ SIZE_MAX := Nat.le_div_iff_mul_le hb
  have hSM : SIZE_MAX = 2 ^ 64 - 1 := rfl
  by_cases hmul : w * b ≤ SIZE_MAX
  · have hwrap : w * b % 2 ^ 64 = w * b := Nat.mod_eq_of_lt (by omega)
    rw [hwrap]
    by_cases hadd : w * b + (32 - w * b % 32) % 32 ≤ SIZE_MAX
    · rw [if_neg (by omega), if_pos ⟨hmul, hadd⟩]
    · rw [if_pos (by omega), if_neg (by omega)]
  · rw [if_pos (Or.inl (by omega)), if_neg (by omega)]

/-- C3.  For positive width and a supported bpp, the file scan-line length
is width times bpp rounded up to the next multiple of 32 bits, divided by 8
(equivalently `(w * b + 31) / 32 * 4`); the result is always a multiple of
4; and the zero (failure) result occurs exactly when the multiplication or
the padding addition would overflow `size_t`. -/
theorem getLineLength_ok (w b : Nat) (hw : 0 < w)
    (hb : b = 1 ∨ b = 4 ∨ b = 8 ∨ b = 16 ∨ b = 24 ∨ b = 32) :
    (w * b + (32 - w * b % 32) % 32 ≤ SIZE_MAX →
      GetLineLength w b = (w * b + 31) / 32 * 4) ∧
    GetLineLength w b % 4 = 0 ∧
    (GetLineLength w b = 0 ↔
      SIZE_MAX < w * b ∨ SIZE_MAX < w * b + (32 - w * b % 32) % 32) := by
  have hb0 : 0 < b := by rcases hb with h | h | h | h | h | h <;> omega
  have hp : 0 < w * b := Nat.mul_pos hw hb0
  rw [getLineLength_eq w b hb0]
  generalize w * b = p at *
  have hSM : SIZE_MAX = 2 ^ 64 - 1 := rfl
  refine ⟨?_, ?_, ?_⟩
  · intro h
    rw [if_pos ⟨by omega, h⟩]
    omega
  · by_cases h : p ≤ SIZE_MAX ∧ p + (32 - p % 32) % 32 ≤ SIZE_MAX
    · rw [if_pos h]; omega
    · rw [if_neg h]
  · by_cases h : p ≤ SIZE_MAX ∧ p + (32 - p % 32) % 32 ≤ SIZE_MAX
    · rw [if_pos h]
      constructor
      · intro h0; omega
      · intro h0; omega
    · rw [if_neg h]
      constructor
      · intro _; omega
      · intro _; rfl

/-- Witness for C3: the spec's three examples, obtained from the theorem at
concrete inputs. -/
theorem getLineLength_ok_witness :
    GetLineLength 3 24 = (3 * 24 + 31) / 32 * 4 ∧
    GetLineLength 1 1 = (1 * 1 + 31) / 32 * 4 ∧
    GetLineLength 33 1 = (33 * 1 + 31) / 32 * 4 :=
  ⟨(getLineLength_ok 3 24 (by decide) (by decide)).1 (by decide),
   (getLineLength_ok 1 1 (by decide) (by decide)).1 (by decide),
   (getLineLength_ok 33 1 (by decide) (by decide)).1 (by decide)⟩

/-! ### The bit-field extractor -/

/-- Soundness of the `CreateBitField` scan loop: started in a consistent
state (no bit seen yet, or the bits seen so far are one contiguous run just
below position `bit_nr`), a successful run leaves a consistent state for
the window of all scanned bits.  The state `(shift, count)` describes the
low `n` bits of the mask: either none is set (`shift` still the 255
sentinel) or they are exactly the run `[shift, shift + count)`. -/
theorem createBitFieldLoop_sound (mask : Nat) :
    ∀ fuel n shift count S K,
      n + fuel ≤ 32 →
      ((mask % 2 ^ n = 0 ∧ shift = 255 ∧ count = 0) ∨
       (1 ≤ count ∧ shift + count ≤ n ∧ shift ≠ 255 ∧
        mask % 2 ^ n = (2 ^ count - 1) * 2 ^ shift)) →
      CreateBitFieldLoop mask fuel n shift count = some (S, K) →
      ((mask % 2 ^ (n + fuel) = 0 ∧ S = 255 ∧ K = 0) ∨
       (1 ≤ K ∧ S + K ≤ n + fuel ∧ S ≠ 255 ∧
        mask % 2 ^ (n + fuel) = (2 ^ K - 1) * 2 ^ S)) := by
  intro fuel
  induction fuel with
  | zero =>
    intro n shift count S K _ hpre hloop
    rw [CreateBitFieldLoop] at hloop
    cases hloop
    simpa using hpre
  | succ fuel ih =>
    intro n shift count S K hn hpre hloop
    rw [CreateBitFieldLoop] at hloop
    have hbit : (mask >>> n) &&& 1 = mask / 2 ^ n % 2 := by
      rw [Nat.shiftRight_eq_div_pow, Nat.and_one_is_mod]
    have hsplit : mask % 2 ^ (n + 1) = mask % 2 ^ n + 2 ^ n * (mask / 2 ^ n % 2) := by
      rw [pow_succ, Nat.mod_mul]
    have hfin : n + (fuel + 1) = (n + 1) + fuel := by omega
    by_cases hb : (mask >>> n) &&& 1 = 1
    · rw [if_pos hb] at hloop
      rw [hbit] at hb
      rw [hb, Nat.mul_one] at hsplit
      rcases hpre with ⟨hm0, hs255, hc0⟩ | ⟨hc1, hsc, hs255, hmrun⟩
      · -- first set bit: the state becomes the one-bit run at position n
        rw [hs255, hc0] at hloop
        norm_num at hloop
        have := ih (n + 1) n 1 S K (by omega)
          (Or.inr ⟨le_refl 1, by omega, by omega, by
            rw [hsplit, hm0]
            norm_num⟩) hloop
        rw [hfin]
        exact this
      · -- a run is in progress: the new bit must extend it contiguously
        rw [if_neg hs255] at hloop
        by_cases hcont : n = count + shift
        · rw [if_neg (by omega)] at hloop
          have hext : mask % 2 ^ (n + 1) = (2 ^ (count + 1) - 1) * 2 ^ shift := by
            rw [hsplit, hmrun]
            have h2n : (2 : Nat) ^ n = 2 ^ count * 2 ^ shift := by
              rw [← pow_add]
              congr 1
            rw [h2n, pow_succ]
            have ha : 1 ≤ (2 : Nat) ^ count := Nat.one_le_two_pow
            have hB : (2 : Nat) ^ shift ≤ 2 ^ count * 2 ^ shift :=
              Nat.le_mul_of_pos_left _ (by positivity)
            have hdistrib : (2 : Nat) ^ count * 2 * 2 ^ shift =
                2 ^ count * 2 ^ shift + 2 ^ count * 2 ^ shift := by ring
            rw [Nat.sub_mul, Nat.sub_mul, one_mul, hdistrib]
            omega
          have := ih (n + 1) shift (count + 1) S K (by omega)
            (Or.inr ⟨by omega, by omega, hs255, hext⟩) hloop
          rw [hfin]
          exact this
        · rw [if_pos (by omega)] at hloop
          exact absurd hloop (by simp)
    · rw [if_neg hb] at hloop
      have hb0 : mask / 2 ^ n % 2 = 0 := by
        rw [hbit] at hb
        omega
      rw [hb0, Nat.mul_zero, Nat.add_zero] at hsplit
      have := ih (n + 1) shift count S K (by omega)
        (by
          rcases hpre with ⟨hm0, hs255, hc0⟩ | ⟨hc1, hsc, hs255, hmrun⟩
          · exact Or.inl ⟨by rw [hsplit]; exact hm0, hs255, hc0⟩
          · exact Or.inr ⟨hc1, by omega, hs255, by rw [hsplit]; exact hmrun⟩) hloop
      rw [hfin]
      exact this

/-- Every contiguous run of 1..31 bits inside 32 bits is extracted with the
expected shift, count and mask (checked by evaluation over all such runs;
the `ℚ`-valued multiplier is recovered separately, since rational division
does not reduce in the kernel). -/
theorem createBitField_run_eval :
    ∀ s, s < 32 → ∀ k, k < 32 → 1 ≤ k ∧ s + k ≤ 32 →
      (CreateBitField ((2 ^ k - 1) * 2 ^ s)).map
          (fun f => (f.bit_shift, f.bit_count, f.bit_mask)) =
        some (s, k, (2 ^ k - 1) * 2 ^ s) := by
  have hall : ((List.range 32).all fun s =>
      (List.range 32).all fun k =>
        !(decide (1 ≤ k) && decide (s + k ≤ 32)) ||
          ((CreateBitField ((2 ^ k - 1) * 2 ^ s)).map
              (fun f => (f.bit_shift, f.bit_count, f.bit_mask))
            == some (s, k, (2 ^ k - 1) * 2 ^ s))) = true := by rfl
  intro s hs k hk ⟨h1, h2⟩
  rw [List.all_eq_true] at hall
  have hs' := hall s (List.mem_range.mpr hs)
  rw [List.all_eq_true] at hs'
  have hk' := hs' k (List.mem_range.mpr hk)
  simp only [decide_eq_true h1, decide_eq_true h2, Bool.and_self, Bool.not_true,
    Bool.false_or, beq_iff_eq] at hk'
  exact hk'

/-- Whatever `CreateBitField` returns for a nonzero mask has the multiplier
`255 / (2 ^ bit_count - 1)`: immediate from the construction. -/
theorem createBitField_some_mult (m : Nat) (f : bit_field_info)
    (hm : m ≠ 0) (h : CreateBitField m = some f) :
    f.value_multiplier = (0xff : ℚ) / (((2 ^ f.bit_count - 1 : Nat) : ℚ)) := by
  rw [CreateBitField, if_neg hm] at h
  split at h
  · exact absurd h (by simp)
  · split at h
    · exact absurd h (by simp)
    · split at h
      · exact absurd h (by simp)
      · rw [Option.some_inj] at h
        subst h
        rfl

/-- C2 (amended).  For a raw 32-bit mask: zero yields the zero field; a
contiguous run of `k` set bits starting at bit `s` with `k ≤ 31` yields
shift `s`, count `k` and multiplier `255 / (2^k - 1)`; the full 32-bit run
(mask `0xffffffff`, and only it) is rejected by the `bit_count > 31` check;
and every nonzero non-contiguous mask fails. -/
theorem createBitField_ok (mask : Nat) (hm : mask < 2 ^ 32) :
    (mask = 0 → CreateBitField mask = some ⟨0, 0, 0, 0⟩) ∧
    (∀ s k, 1 ≤ k → k ≤ 31 → mask = (2 ^ k - 1) * 2 ^ s →
      CreateBitField mask =
        some ⟨s, k, mask, (0xff : ℚ) / (((2 ^ k - 1 : Nat) : ℚ))⟩) ∧
    (mask = 2 ^ 32 - 1 → CreateBitField mask = none) ∧
    (mask ≠ 0 → (¬∃ s k, 1 ≤ k ∧ mask = (2 ^ k - 1) * 2 ^ s) →
      CreateBitField mask = none) := by
  refine ⟨?_, ?_, ?_, ?_⟩
  · intro h; subst h; rfl
  · intro s k hk1 hk31 hmask
    have hk2 : 2 ^ (k - 1) ≤ 2 ^ k - 1 := by
      have : 2 ^ k = 2 * 2 ^ (k - 1) := by
        rw [← pow_succ']
        congr 1
        omega
      omega
    have hsk : 2 ^ (s + k - 1) ≤ mask := by
      rw [hmask]
      calc 2 ^ (s + k - 1) = 2 ^ (k - 1) * 2 ^ s := by
            rw [← pow_add]
            congr 1
            omega
        _ ≤ (2 ^ k - 1) * 2 ^ s := Nat.mul_le_mul_right _ hk2
    have hskle : s + k ≤ 32 := by
      have := lt_of_le_of_lt hsk hm
      have := (Nat.pow_lt_pow_iff_right (a := 2) (by norm_num)).mp this
      omega
    have hs32 : s < 32 := by omega
    have hmap := createBitField_run_eval s hs32 k (by omega) ⟨hk1, hskle⟩
    have hrun0 : (2 ^ k - 1) * 2 ^ s ≠ 0 := by
      have h2k : (2 : Nat) ≤ 2 ^ k := by
        calc (2 : Nat) = 2 ^ 1 := by norm_num
        _ ≤ 2 ^ k := Nat.pow_le_pow_right (by norm_num) hk1
      have h2s : (0 : Nat) < 2 ^ s := by positivity
      exact Nat.mul_ne_zero (by omega) (by omega)
    cases heval : CreateBitField ((2 ^ k - 1) * 2 ^ s) with
    | none =>
      rw [heval] at hmap
      exact absurd hmap (by simp)
    | some f =>
      rw [heval] at hmap
      simp at hmap
      obtain ⟨h1, h2, h3⟩ := hmap
      have hmult := createBitField_some_mult _ f hrun0 heval
      rw [hmask, heval]
      obtain ⟨fs, fc, fm, fv⟩ := f
      simp only at h1 h2 h3 hmult
      subst h1
      subst h2
      subst h3
      subst hmult
      rfl
  · intro h; subst h; decide
  · intro h0 hnex
    rw [CreateBitField, if_neg h0]
    cases hloop : CreateBitFieldLoop mask (BMP_BIT_FIELD_SIZE * 8) 0 255 0 with
    | none => rfl
    | some sc =>
      obtain ⟨S, K⟩ := sc
      have hsound := createBitFieldLoop_sound mask 32 0 255 0 S K (by omega)
        (Or.inl ⟨by omega, rfl, rfl⟩) hloop
      rcases hsound with ⟨hm0, hS, hK⟩ | ⟨hK1, _, _, hmod⟩
      · rw [Nat.mod_eq_of_lt (by omega)] at hm0
        exact absurd hm0 h0
      · rw [Nat.mod_eq_of_lt (by omega)] at hmod
        exact absurd ⟨S, K, hK1, hmod⟩ hnex

/-- Counterexample for C2 as stated: `0xffffffff` is nonzero and its set
bits form one contiguous run (32 bits at position 0), yet construction
fails. -/
theorem createBitField_counterexample :
    (0xffffffff : Nat) ≠ 0 ∧
    (0xffffffff : Nat) = (2 ^ 32 - 1) * 2 ^ 0 ∧
    CreateBitField 0xffffffff = none := by decide

/-- Witness for C2 (amended): the mask `0x00ff0000` (run of 8 bits at
position 16). -/
theorem createBitField_ok_witness :
    CreateBitField 0x00ff0000 =
      some ⟨16, 8, 0x00ff0000, (0xff : ℚ) / (((2 ^ 8 - 1 : Nat) : ℚ))⟩ :=
  (createBitField_ok 0x00ff0000 (by decide)).2.1 16 8 (by decide) (by decide)
    (by decide)

/-! ### The bit-field block of Validate -/

theorem lor_overlap_left (a b c : Nat) (h : a &&& c ≠ 0) :
    (a ||| b) &&& c ≠ 0 := by
  intro h0
  exact h ((lor_land_eq_zero_iff a b c).mp h0).1

theorem lor_overlap_right (a b c : Nat) (h : b &&& c ≠ 0) :
    (a ||| b) &&& c ≠ 0 := by
  intro h0
  exact h ((lor_land_eq_zero_iff a b c).mp h0).2

theorem bitFieldLoop_fail_overlap (m : Nat) (rest : List Nat) (t c : Nat)
    (fs : List bit_field_info) (h : t &&& m ≠ 0) :
    BitFieldLoop (m :: rest) t c fs = none := by
  rw [BitFieldLoop, if_pos h]

theorem bitFieldLoop_fail_field (m : Nat) (rest : List Nat) (t c : Nat)
    (fs : List bit_field_info) (h1 : t &&& m = 0) (h2 : CreateBitField m = none) :
    BitFieldLoop (m :: rest) t c fs = none := by
  rw [BitFieldLoop, if_neg (by simp [h1]), h2]

theorem bitFieldLoop_step (m : Nat) (rest : List Nat) (t c : Nat)
    (fs : List bit_field_info) (f : bit_field_info)
    (h1 : t &&& m = 0) (h2 : CreateBitField m = some f) :
    BitFieldLoop (m :: rest) t c fs =
      BitFieldLoop rest (t ||| m) (c + f.bit_count) (fs ++ [f]) := by
  rw [BitFieldLoop, if_neg (by simp [h1]), h2]

/-- If any two masks in the list overlap (or a mask overlaps the bits
accumulated so far), the channel loop fails, wherever the loop happens to
stop first. -/
theorem bitFieldLoop_overlap :
    ∀ (ms : List Nat) (t c : Nat) (fs : List bit_field_info),
      (¬ms.Pairwise (fun a b => a &&& b = 0) ∨ ∃ m ∈ ms, t &&& m ≠ 0) →
      BitFieldLoop ms t c fs = none := by
  intro ms
  induction ms with
  | nil =>
    intro t c fs h
    rcases h with h | ⟨m, hm, _⟩
    · exact absurd List.Pairwise.nil h
    · exact absurd hm (List.not_mem_nil m)
  | cons m rest ih =>
    intro t c fs h
    by_cases hov : t &&& m ≠ 0
    · exact bitFieldLoop_fail_overlap m rest t c fs hov
    · rw [not_not] at hov
      cases hcb : CreateBitField m with
      | none => exact bitFieldLoop_fail_field m rest t c fs hov hcb
      | some f =>
        rw [bitFieldLoop_step m rest t c fs f hov hcb]
        apply ih
        rcases h with hnp | ⟨x, hx, hxo⟩
        · by_cases hrest : rest.Pairwise (fun a b => a &&& b = 0)
          · rw [List.pairwise_cons] at hnp
            have : ¬∀ b ∈ rest, m &&& b = 0 := fun hall => hnp ⟨hall, hrest⟩
            push_neg at this
            obtain ⟨b, hb, hbo⟩ := this
            exact Or.inr ⟨b, hb, lor_overlap_right t m b hbo⟩
          · exact Or.inl hrest
        · rcases List.mem_cons.mp hx with hxm | hxr
          · subst hxm
            exact absurd hxo (by simp [hov])
          · exact Or.inr ⟨x, hxr, lor_overlap_left t m x hxo⟩

/-- C5.  For BITFIELDS files, the bit-field block fails whenever two of the
four channel masks share a set bit; and when all four fields build with
pairwise disjoint masks, it fails exactly when the summed bit counts exceed
the declared bpp, otherwise returning the four fields. -/
theorem validateBitFields_ok (m0 m1 m2 m3 bits : Nat) :
    ((m0 &&& m1 ≠ 0 ∨ m0 &&& m2 ≠ 0 ∨ m0 &&& m3 ≠ 0 ∨
      m1 &&& m2 ≠ 0 ∨ m1 &&& m3 ≠ 0 ∨ m2 &&& m3 ≠ 0) →
      ValidateBitFields [m0, m1, m2, m3] bits = none) ∧
    (∀ f0 f1 f2 f3,
      CreateBitField m0 = some f0 → CreateBitField m1 = some f1 →
      CreateBitField m2 = some f2 → CreateBitField m3 = some f3 →
      m0 &&& m1 = 0 → m0 &&& m2 = 0 → m0 &&& m3 = 0 →
      m1 &&& m2 = 0 → m1 &&& m3 = 0 → m2 &&& m3 = 0 →
      ((bits < f0.bit_count + f1.bit_count + f2.bit_count + f3.bit_count →
        ValidateBitFields [m0, m1, m2, m3] bits = none) ∧
       (f0.bit_count + f1.bit_count + f2.bit_count + f3.bit_count ≤ bits →
        ValidateBitFields [m0, m1, m2, m3] bits = some [f0, f1, f2, f3]))) := by
  constructor
  · intro hov
    rw [ValidateBitFields, bitFieldLoop_overlap [m0, m1, m2, m3] 0 0 []
      (Or.inl (by
        intro hp
        simp only [List.pairwise_cons, List.mem_cons, List.not_mem_nil] at hp
        rcases hov with h | h | h | h | h | h <;> simp_all))]
  · intro f0 f1 f2 f3 h0 h1 h2 h3 h01 h02 h03 h12 h13 h23
    have e0 := bitFieldLoop_step m0 [m1, m2, m3] 0 0 [] f0 (Nat.zero_and m0) h0
    have e1 := bitFieldLoop_step m1 [m2, m3] (0 ||| m0) (0 + f0.bit_count) [f0] f1
      (by rw [Nat.zero_or]; exact h01) h1
    have e2 := bitFieldLoop_step m2 [m3] ((0 ||| m0) ||| m1)
      (0 + f0.bit_count + f1.bit_count) [f0, f1] f2
      (by
        rw [Nat.zero_or]
        exact (lor_land_eq_zero_iff m0 m1 m2).mpr ⟨h02, h12⟩) h2
    have e3 := bitFieldLoop_step m3 [] (((0 ||| m0) ||| m1) ||| m2)
      (0 + f0.bit_count + f1.bit_count + f2.bit_count) [f0, f1, f2] f3
      (by
        rw [Nat.zero_or]
        exact (lor_land_eq_zero_iff (m0 ||| m1) m2 m3).mpr
          ⟨(lor_land_eq_zero_iff m0 m1 m3).mpr ⟨h03, h13⟩, h23⟩) h3
    have eall : BitFieldLoop [m0, m1, m2, m3] 0 0 [] =
        some (0 + f0.bit_count + f1.bit_count + f2.bit_count + f3.bit_count,
              [f0, f1, f2, f3]) := by
      rw [e0]
      simp only [List.nil_append] at e1 ⊢
      rw [e1]
      simp only [List.cons_append, List.nil_append] at e2 ⊢
      rw [e2]
      simp only [List.cons_append, List.nil_append] at e3 ⊢
      rw [e3]
      rw [BitFieldLoop]
    constructor
    · intro hgt
      rw [ValidateBitFields, eall]
      exact if_pos (by omega)
    · intro hle
      rw [ValidateBitFields, eall]
      exact if_neg (by omega)

/-- Witness for C5: the standard ARGB32 masks at bpp 32 (sum of counts
exactly 32, pairwise disjoint) build successfully. -/
theorem validateBitFields_ok_witness :
    ValidateBitFields [0xff0000, 0xff00, 0xff, 0xff000000] 32 =
      some [⟨16, 8, 0xff0000, (0xff : ℚ) / (((2 ^ 8 - 1 : Nat) : ℚ))⟩,
            ⟨8, 8, 0xff00, (0xff : ℚ) / (((2 ^ 8 - 1 : Nat) : ℚ))⟩,
            ⟨0, 8, 0xff, (0xff : ℚ) / (((2 ^ 8 - 1 : Nat) : ℚ))⟩,
            ⟨24, 8, 0xff000000, (0xff : ℚ) / (((2 ^ 8 - 1 : Nat) : ℚ))⟩] :=
  ((validateBitFields_ok 0xff0000 0xff00 0xff 0xff000000 32).2
    ⟨16, 8, 0xff0000, (0xff : ℚ) / (((2 ^ 8 - 1 : Nat) : ℚ))⟩
    ⟨8, 8, 0xff00, (0xff : ℚ) / (((2 ^ 8 - 1 : Nat) : ℚ))⟩
    ⟨0, 8, 0xff, (0xff : ℚ) / (((2 ^ 8 - 1 : Nat) : ℚ))⟩
    ⟨24, 8, 0xff000000, (0xff : ℚ) / (((2 ^ 8 - 1 : Nat) : ℚ))⟩
    (by rfl) (by rfl) (by rfl) (by rfl)
    (by decide) (by decide) (by decide) (by decide) (by decide) (by decide)).2
    (by decide)

/-! ### The power-of-two predicate -/

theorem testBit_fffffffe (i : Nat) :
    (0xfffffffe : Nat).testBit i = true ↔ 1 ≤ i ∧ i < 32 := by
  cases i with
  | zero =>
    rw [Nat.testBit_zero]
    norm_num
  | succ j =>
    rw [Nat.testBit_succ]
    have h2 : (0xfffffffe : Nat) / 2 = 2 ^ 31 - 1 := by norm_num
    rw [h2, Nat.testBit_two_pow_sub_one]
    simp only [decide_eq_true_eq]
    omega

theorem and_fffffffe_eq_zero (x : Nat) (hx : x < 2 ^ 32) :
    x &&& 0xfffffffe = 0 ↔ x ≤ 1 := by
  rw [land_eq_zero_iff]
  constructor
  · intro h
    by_contra hgt
    -- x ≥ 2 has a set bit at some position ≥ 1
    have hx2 : x / 2 ≠ 0 := by omega
    obtain ⟨j, hj⟩ := Nat.ne_zero_implies_bit_true hx2
    have hbit : x.testBit (j + 1) = true := by
      rw [Nat.testBit_succ]; exact hj
    have hjlt : j + 1 < 32 := by
      by_contra hge
      have : x < 2 ^ (j + 1) :=
        lt_of_lt_of_le hx (Nat.pow_le_pow_right (by norm_num) (by omega))
      rw [Nat.testBit_lt_two_pow this] at hbit
      exact Bool.false_ne_true hbit
    exact h (j + 1) ⟨hbit, (testBit_fffffffe (j + 1)).mpr ⟨by omega, hjlt⟩⟩
  · intro h i ⟨hxi, hmi⟩
    have := (testBit_fffffffe i).mp hmi
    have hxle : x < 2 ^ i := by
      have : (2 : Nat) ≤ 2 ^ i := by
        calc (2 : Nat) = 2 ^ 1 := by norm_num
        _ ≤ 2 ^ i := Nat.pow_le_pow_right (by norm_num) (by omega)
      omega
    rw [Nat.testBit_lt_two_pow hxle] at hxi
    exact Bool.false_ne_true hxi

theorem isPowerOf2Loop_iff :
    ∀ fuel x, x < 2 ^ fuel → fuel ≤ 32 →
      (IsPowerOf2Loop fuel x = true ↔ ∃ k, x = 2 ^ k) := by
  intro fuel
  induction fuel with
  | zero =>
    intro x hx _
    have hx0 : x = 0 := by omega
    subst hx0
    rw [IsPowerOf2Loop]
    constructor
    · intro h; exact absurd h (by decide)
    · rintro ⟨k, hk⟩
      have : 0 < 2 ^ k := Nat.pos_pow_of_pos k (by norm_num)
      omega
  | succ fuel ih =>
    intro x hx hfuel
    rw [IsPowerOf2Loop]
    by_cases hx0 : x = 0
    · subst hx0
      rw [if_pos rfl]
      constructor
      · intro h; exact absurd h (by decide)
      · rintro ⟨k, hk⟩
        have : 0 < 2 ^ k := Nat.pos_pow_of_pos k (by norm_num)
        omega
    · rw [if_neg hx0, Nat.and_one_is_mod]
      have hx32 : x < 2 ^ 32 :=
        lt_of_lt_of_le hx (Nat.pow_le_pow_right (by norm_num) hfuel)
      by_cases hodd : x % 2 = 1
      · rw [if_pos hodd]
        rw [show (x &&& 0xfffffffe == 0) = decide (x &&& 0xfffffffe = 0) from rfl]
        rw [decide_eq_true_iff]
        rw [and_fffffffe_eq_zero x hx32]
        constructor
        · intro h
          exact ⟨0, by omega⟩
        · rintro ⟨k, hk⟩
          cases k with
          | zero => omega
          | succ j =>
            rw [Nat.pow_succ] at hk
            omega
      · rw [if_neg hodd]
        have hrec := ih (x / 2) (by omega) (by omega)
        rw [hrec]
        constructor
        · rintro ⟨k, hk⟩
          exact ⟨k + 1, by rw [Nat.pow_succ]; omega⟩
        · rintro ⟨k, hk⟩
          cases k with
          | zero => omega
          | succ j =>
            rw [Nat.pow_succ] at hk
            exact ⟨j, by omega⟩

theorem isPowerOf2_iff (x : Nat) (hx : x < 2 ^ 32) :
    IsPowerOf2 x = true ↔ ∃ k, x = 2 ^ k :=
  isPowerOf2Loop_iff 32 x hx (by omega)

/-- Inversion of the checking half of `Validate`: success with the ANY_SIZE
flag clear means both power-of-two tests passed. -/
theorem validateChecks_ok_pow2 (flags : Nat) (s : FStream) (pre : pre_context)
    (h : ValidateChecks flags s = .ok pre)
    (hf : flags &&& BMPREAD_ANY_SIZE = 0) :
    IsPowerOf2 pre.info.width.toNat = true ∧ IsPowerOf2 pre.lines = true := by
  simp only [ValidateChecks] at h
  repeat' split at h
  all_goals cases h
  refine ⟨?_, ?_⟩ <;> (by_contra hx; rw [Bool.not_eq_true] at hx; simp_all)

/-- Inversion of the loading half of `Validate`: the context it returns
keeps the parsed info and line count of the pre-context. -/
theorem validateLoad_ok_fields (data : List Nat) (pre : pre_context)
    (ctx : read_context) (log : List VAlloc)
    (h : ValidateLoad data pre = (.ok ctx, log)) :
    ctx.info = pre.info ∧ ctx.lines = pre.lines := by
  simp only [ValidateLoad] at h
  split at h
  · exact absurd h (by simp)
  · split at h
    · exact absurd h (by simp)
    · split at h
      · exact absurd h (by simp)
      · cases h
        exact ⟨rfl, rfl⟩

/-- C4.  `IsPowerOf2` is true on every power of two below 2^32 (including
2^31, the magnitude of the signed-32 minimum), false on everything else
(including 0); and a file accepted by `Validate` without the ANY_SIZE flag
has a power-of-two width and a power-of-two absolute line count. -/
theorem isPowerOf2_ok :
    (∀ k, k ≤ 31 → IsPowerOf2 (2 ^ k) = true) ∧
    IsPowerOf2 (2 ^ 31) = true ∧
    IsPowerOf2 0 = false ∧
    (∀ x, x < 2 ^ 32 → (∀ k, x ≠ 2 ^ k) → IsPowerOf2 x = false) ∧
    (∀ flags data ctx log,
      Validate flags data = (Except.ok ctx, log) →
      flags &&& BMPREAD_ANY_SIZE = 0 →
      IsPowerOf2 ctx.info.width.toNat = true ∧ IsPowerOf2 ctx.lines = true) := by
  have hpow : ∀ k, k ≤ 31 → IsPowerOf2 (2 ^ k) = true := by
    intro k hk
    exact (isPowerOf2_iff (2 ^ k)
      ((Nat.pow_lt_pow_iff_right (by norm_num)).mpr (by omega))).mpr ⟨k, rfl⟩
  refine ⟨hpow, hpow 31 (by omega), by decide, ?_, ?_⟩
  · intro x hx hk
    cases hv : IsPowerOf2 x with
    | false => rfl
    | true =>
      obtain ⟨k, hkk⟩ := (isPowerOf2_iff x hx).mp hv
      exact absurd hkk (hk k)
  · intro flags data ctx log h hf
    simp only [Validate] at h
    split at h
    · simp at h
    · rename_i pre heq
      have hfields := validateLoad_ok_fields data pre ctx log h
      have hpow2 := validateChecks_ok_pow2 flags ⟨data, 0⟩ pre heq hf
      rw [hfields.1, hfields.2]
      exact hpow2

/-- Witness for C4: a concrete power of two, and the accepted `File24`
(width 2, lines 2) with the ANY_SIZE flag clear. -/
theorem isPowerOf2_ok_witness :
    IsPowerOf2 (2 ^ 5) = true ∧
    (IsPowerOf2 Ctx24.info.width.toNat = true ∧ IsPowerOf2 Ctx24.lines = true) :=
  ⟨isPowerOf2_ok.1 5 (by decide),
   isPowerOf2_ok.2.2.2.2 0 File24 Ctx24
     [VAlloc.fileData 8, VAlloc.dataOut 16] (by rfl) (by decide)⟩

/-! ### Supported format combinations -/

/-- The `switch` of `Validate` accepts exactly the pairs the spec lists. -/
theorem isSupported_iff (c b : Nat) :
    IsSupported c b = true ↔
      ((c = 0 ∧ (b = 1 ∨ b = 4 ∨ b = 8 ∨ b = 24)) ∨
       (c = 3 ∧ (b = 16 ∨ b = 32))) := by
  rcases c with _ | _ | _ | _ | c <;> (simp [IsSupported]; try tauto)

/-- Inversion: a context accepted by the checking half has a supported
(compression, bits) pair. -/
theorem validateChecks_ok_support (flags : Nat) (s : FStream)
    (pre : pre_context) (h : ValidateChecks flags s = .ok pre) :
    IsSupported pre.info.compression pre.info.bits = true := by
  simp only [ValidateChecks] at h
  repeat' split at h
  all_goals cases h
  simp_all

/-- C6.  `Validate` accepts a (compression, bits-per-pixel) pair only if it
is uncompressed with bpp in 1/4/8/24 or bit-masked (compression 3) with bpp
16/32 (`isSupported_iff` characterizes the set); any parsed file with an
unsupported pair — RLE8, RLE4, bpp 2, and so on — fails with the
`unsupported` error and an empty allocation log, i.e. before the output
buffer (or anything else) is allocated. -/
theorem validate_supported_only :
    (∀ c b, IsSupported c b = true ↔
      ((c = 0 ∧ (b = 1 ∨ b = 4 ∨ b = 8 ∨ b = 24)) ∨
       (c = 3 ∧ (b = 16 ∨ b = 32)))) ∧
    (∀ flags data ctx log, Validate flags data = (Except.ok ctx, log) →
      IsSupported ctx.info.compression ctx.info.bits = true) ∧
    (∀ flags data hdr info s1 s2,
      ReadHeader ⟨data, 0⟩ = some (hdr, s1) →
      ReadInfo s1 = some (info, s2) →
      0 < info.width → info.height ≠ 0 →
      IsSupported info.compression info.bits = false →
      Validate flags data = (Except.error VErr.unsupported, [])) := by
  refine ⟨isSupported_iff, ?_, ?_⟩
  · intro flags data ctx log h
    simp only [Validate] at h
    split at h
    · simp at h
    · rename_i pre heq
      have hfields := validateLoad_ok_fields data pre ctx log h
      rw [hfields.1]
      exact validateChecks_ok_support flags ⟨data, 0⟩ pre heq
  · intro flags data hdr info s1 s2 hh hi hw hht hsup
    rw [Validate]
    have hchk : ValidateChecks flags ⟨data, 0⟩ = .error .unsupported := by
      simp only [ValidateChecks, hh, hi]
      rw [if_neg (by
        rintro (h | h)
        · omega
        · exact hht h)]
      rw [if_pos (by simp [hsup])]
    rw [hchk]

/-- Witness for C6: a file declaring compression 1 (RLE8) parses but is
rejected as unsupported, with nothing allocated. -/
theorem validate_supported_only_witness :
    Validate 0 FileRle8 = (Except.error VErr.unsupported, []) :=
  validate_supported_only.2.2 0 FileRle8 ⟨0x42, 0x4d, 54, 0, 54⟩
    ⟨40, 1, 1, 1, 8, 1, 0, 0, 0, 0, 0, 0, 0, 0, 0⟩
    ⟨FileRle8, 14⟩ ⟨FileRle8, 54⟩ (by rfl) (by rfl) (by decide) (by decide)
    (by decide)

/-! ### The decode loop -/

theorem readLines_isSome :
    ∀ (n len : Nat) (s : FStream),
      (ReadLines n len s).isSome = true ↔ n * len ≤ s.data.length - s.pos := by
  intro n
  induction n with
  | zero =>
    intro len s
    simp [ReadLines]
  | succ n ih =>
    intro len s
    have hmul : (n + 1) * len = n * len + len := by ring
    have hrec : (ReadLines n len ⟨s.data, s.pos + len⟩).isSome = true ↔
        n * len ≤ s.data.length - (s.pos + len) := ih len ⟨s.data, s.pos + len⟩
    rw [ReadLines]
    by_cases hrd : len ≤ s.data.length - s.pos
    · rw [FileRead, if_pos hrd]
      cases hr : ReadLines n len ⟨s.data, s.pos + len⟩ with
      | none =>
        simp only [hr, Option.isSome_none, Bool.false_eq_true, false_iff] at hrec ⊢
        omega
      | some rest =>
        simp only [hr, Option.isSome_some, true_iff] at hrec ⊢
        omega
    · rw [FileRead, if_neg hrd]
      simp only [Option.isSome_none, Bool.false_eq_true, false_iff]
      omega

theorem decode_eval (ctx : read_context)
    (dec : read_context → List Nat → List Nat)
    (hdec : DecoderFor ctx.info.bits = some dec)
    (ho : ctx.out_line_len ≤ PTRDIFF_MAX) :
    (Decode ctx).isSome = true ↔
      ctx.lines * ctx.file_line_len ≤
        ctx.data.length - ctx.header.data_offset := by
  have hsome := readLines_isSome ctx.lines ctx.file_line_len
    ⟨ctx.data, ctx.header.data_offset⟩
  rw [Decode, if_neg (by omega), hdec]
  cases hr : ReadLines ctx.lines ctx.file_line_len
      ⟨ctx.data, ctx.header.data_offset⟩ with
  | none =>
    rw [hr] at hsome
    simpa using hsome
  | some ls =>
    rw [hr] at hsome
    simpa using hsome

/-- C7.  The decode loop succeeds if and only if all `lines` full scan
lines of `file_line_len` bytes can be read from the stream starting at the
pixel data offset; a short read before that count is reached makes the
whole decode fail. -/
theorem decode_loop_ok (ctx : read_context)
    (hb : ctx.info.bits = 1 ∨ ctx.info.bits = 4 ∨ ctx.info.bits = 8 ∨
          ctx.info.bits = 16 ∨ ctx.info.bits = 24 ∨ ctx.info.bits = 32)
    (ho : ctx.out_line_len ≤ PTRDIFF_MAX) :
    (Decode ctx).isSome = true ↔
      ctx.lines * ctx.file_line_len ≤
        ctx.data.length - ctx.header.data_offset := by
  rcases hb with h | h | h | h | h | h <;>
    exact decode_eval ctx _ (by rw [h]; rfl) ho

/-- Witness for C7: the context of the 2x2 24-bit file (16 pixel bytes
available, 2 lines of 8 needed). -/
theorem decode_loop_ok_witness :
    (Decode Ctx24).isSome = true ↔
      Ctx24.lines * Ctx24.file_line_len ≤
        Ctx24.data.length - Ctx24.header.data_offset :=
  decode_loop_ok Ctx24 (by decide) (by decide)

/-! ### The 24-bit round trip -/

/-- Counterexample for C1 as stated: with no orientation flag, the decoded
2x2 24-bit image keeps the file row order (`ArrangeOut true`), which
differs from the row-reversed buffer (`ArrangeOut false`) the claim
requires; pixels are the RGB reorderings of the file's BGR pixels, padding
bytes stay uninitialized. -/
theorem decode24_flags_counterexample :
    (bmpread (some (some File24)) 0 (some ⟨0, 0, 0, none⟩)).2 =
      some ⟨2, 2, 0, some (ArrangeOut true 8 (File24PixelRows.map BgrToRgb))⟩ ∧
    ArrangeOut true 8 (File24PixelRows.map BgrToRgb) ≠
      ArrangeOut false 8 (File24PixelRows.map BgrToRgb) := by decide

/-- C1 (amended).  The synthetic 24-bit 2x2 bitmap (positive height)
decodes to the byte-reordered RGB equivalent of its BGR file pixels; the
output row order is preserved relative to file row order when no
orientation flag is given, and reversed when TOP_DOWN is given. -/
theorem decode24_roundtrip :
    bmpread (some (some File24)) 0 (some ⟨0, 0, 0, none⟩) =
      (true, some ⟨2, 2, 0,
        some (ArrangeOut true 8 (File24PixelRows.map BgrToRgb))⟩) ∧
    bmpread (some (some File24)) BMPREAD_TOP_DOWN (some ⟨0, 0, 0, none⟩) =
      (true, some ⟨2, 2, BMPREAD_TOP_DOWN,
        some (ArrangeOut false 8 (File24PixelRows.map BgrToRgb))⟩) := by decide

/-! ### The public entry points -/

/-- Evaluation of `bmpread` once both pointers are non-NULL and `fopen`
succeeded: the remaining control flow depends only on `Validate` and
`Decode` (this is definitional). -/
theorem bmpread_open_eq (flags : Nat) (data : List Nat) (prior : bmpread_t) :
    bmpread (some (some data)) flags (some prior) =
      (match Validate flags data with
       | (.error _, _) => (false, some ⟨0, 0, 0, none⟩)
       | (.ok ctx, _) =>
         match Decode ctx with
         | none => (false, some ⟨0, 0, 0, none⟩)
         | some out =>
           (true, some ⟨ctx.info.width.toNat, ctx.lines, ctx.flags,
                        some out⟩)) := rfl

/-- C8.  A NULL path or NULL output pointer makes `bmpread` fail; and any
failing call with both arguments non-NULL leaves every field of the output
descriptor zero (data pointer NULL), so no partial image escapes. -/
theorem bmpread_null_fail :
    ∀ path flags p_out,
      ((path = none ∨ p_out = none) → (bmpread path flags p_out).1 = false) ∧
      (path ≠ none → p_out ≠ none → (bmpread path flags p_out).1 = false →
        (bmpread path flags p_out).2 = some ⟨0, 0, 0, none⟩) := by
  intro path flags p_out
  constructor
  · rintro (rfl | rfl)
    · rfl
    · cases path with
      | none => rfl
      | some fo => rfl
  · intro hp ho hf
    cases path with
    | none => exact absurd rfl hp
    | some fo =>
      cases p_out with
      | none => exact absurd rfl ho
      | some prior =>
        cases fo with
        | none => rfl
        | some data =>
          rcases hval : Validate flags data with ⟨res, log⟩
          cases res with
          | error e =>
            rw [bmpread_open_eq, hval]
          | ok ctx =>
            cases hdec : Decode ctx with
            | none =>
              rw [bmpread_open_eq, hval]
              simp only [hdec]
            | some out =>
              rw [show bmpread (some (some data)) flags (some prior) =
                  (true, some ⟨ctx.info.width.toNat, ctx.lines, ctx.flags,
                               some out⟩) from by
                rw [bmpread_open_eq, hval]
                simp only [hdec]] at hf
              exact absurd hf (by simp)

/-- Witness for C8: a non-NULL path whose `fopen` fails, with a non-NULL,
initially garbage output descriptor: the call fails and zeroes it. -/
theorem bmpread_null_fail_witness :
    (bmpread (some none) 0 (some ⟨5, 6, 7, some []⟩)).2 =
      some ⟨0, 0, 0, none⟩ :=
  (bmpread_null_fail (some none) 0 (some ⟨5, 6, 7, some []⟩)).2
    (by simp) (by simp) (by rfl)

/-- C9.  `bmpread_free` zeroes a non-NULL descriptor (freeing its data
exactly when the data pointer is non-NULL); releasing again changes
nothing and performs no free; and releasing a NULL descriptor is a no-op
that frees nothing. -/
theorem bmpread_free_idempotent :
    (∀ b : bmpread_t,
      bmpread_free (some b) = (some ⟨0, 0, 0, none⟩, b.data.isSome)) ∧
    (∀ p : Option bmpread_t,
      bmpread_free ((bmpread_free p).1) = ((bmpread_free p).1, false)) ∧
    bmpread_free none = (none, false) := by
  refine ⟨fun b => rfl, ?_, rfl⟩
  intro p
  cases p with
  | none => rfl
  | some b => rfl

end LibBmpread
